import Mathlib

/-!
Verification of the forecasting engine of the giga-hack-singularity
repository against its specification.

The repository ships a React frontend (embedded below for the chart
components) and a README describing a Python forecasting package
(consumption_forecast.py, energy_api.py).  The forecasting engine itself
is not part of the available sources, so its operations are modelled
from the specification text; each such definition carries a doc comment
starting with "Modelled from the spec:".

Conventions of the embedding:
- timestamps are hours since an epoch (Nat); hour of day is t % 24,
  day of week is (t / 24) % 7, day of year is (t / 24) % 365;
- float values are modelled as rationals;
- the cyclical sine/cosine encodings and the seasonal temperature proxy
  are fixed deterministic functions of the stored hour, day-of-week and
  day-of-year fields, so they carry no information beyond those fields;
  the embedding stores the underlying calendar fields and, since no
  claim constrains the transcendental images numerically, omits the
  irrational images themselves;
- rolling standard deviation is represented by the rolling variance
  field roll_var (its square); equality and dependence statements are
  unaffected since squaring the standard deviation is a bijection on
  nonnegative values.
-/

/-- Target type selecting which measured quantity a model predicts:
import, export, or net = import minus export. -/
inductive TargetType where
  | imp
  | exp
  | net
deriving DecidableEq

/-- Error taxonomy of the engine, from the specification section 7. -/
inductive FcError where
  | dataError
  | insufficientData
  | trainingError
  | modelNotTrained
deriving DecidableEq

/-- Raw per-meter observation, from the specification data model. -/
structure ConsumptionRecord where
  meter_id : Nat
  timestamp : Nat
  import_value : ℚ
  export_value : ℚ
deriving DecidableEq

/-- Modelled from the spec: the value of the selected target column of a
record; net = import minus export. -/
def targetValue (tt : TargetType) (r : ConsumptionRecord) : ℚ :=
  match tt with
  | .imp => r.import_value
  | .exp => r.export_value
  | .net => r.import_value - r.export_value

/-- Hour of day of an hourly timestamp. -/
def hourOf (t : Nat) : Nat := t % 24

/-- Day of week of an hourly timestamp. -/
def dowOf (t : Nat) : Nat := (t / 24) % 7

/-- Day of year of an hourly timestamp, on a 365-day year. -/
def doyOf (t : Nat) : Nat := (t / 24) % 365

/-- Month (1..12) of a day of year, using standard month lengths. -/
def monthOfDoy (d : Nat) : Nat :=
  if d < 31 then 1 else if d < 59 then 2 else if d < 90 then 3
  else if d < 120 then 4 else if d < 151 then 5 else if d < 181 then 6
  else if d < 212 then 7 else if d < 243 then 8 else if d < 273 then 9
  else if d < 304 then 10 else if d < 334 then 11 else 12

/-- Modelled from the spec: dedup-keep-first worker: drop every record
whose timestamp was already seen, keeping the first occurrence of each
timestamp. -/
def dedupGo (seen : List Nat) : List ConsumptionRecord → List ConsumptionRecord
  | [] => []
  | r :: rs =>
      if r.timestamp ∈ seen then dedupGo seen rs
      else r :: dedupGo (r.timestamp :: seen) rs

/-- Modelled from the spec: keep the first record for each duplicated
timestamp and drop the subsequent ones (dedup-keep-first policy of the
Feature Builder; a recovered DataError, never raised). -/
def dedupKeepFirst (records : List ConsumptionRecord) : List ConsumptionRecord :=
  dedupGo [] records

/-- Timestamp ordering on records used for sorting. -/
def recLE (a b : ConsumptionRecord) : Prop := a.timestamp ≤ b.timestamp

instance : DecidableRel recLE := fun a b => Nat.decLe a.timestamp b.timestamp

instance : IsTotal ConsumptionRecord recLE :=
  ⟨fun a b => Nat.le_total a.timestamp b.timestamp⟩

instance : IsTrans ConsumptionRecord recLE :=
  ⟨fun _ _ _ h1 h2 => Nat.le_trans h1 h2⟩

/-- Modelled from the spec: the cleanup phase of the Feature Builder:
deduplicate timestamps keeping the first occurrence, then sort the
records by timestamp. -/
def cleanSeries (records : List ConsumptionRecord) : List ConsumptionRecord :=
  List.insertionSort recLE (dedupKeepFirst records)

/-- History pair: a timestamp together with the target value observed or
predicted at that timestamp. -/
abbrev HistPair := Nat × ℚ

/-- Modelled from the spec: lag feature by indexed lookback: the target
value at timestamp t - k in the strict history; rows lacking the
lookback are imputed using the earliest available (strictly earlier)
value, and 0 when no earlier value exists at all. -/
def lagFeature (hist : List HistPair) (t k : Nat) : ℚ :=
  match hist.find? (fun p => decide (p.1 + k = t)) with
  | some p => p.2
  | none =>
      match hist.head? with
      | some p => p.2
      | none => 0

/-- Modelled from the spec: the values inside a trailing window of width
w, taken from the strict history only (the hist argument holds only
strictly earlier timestamps). -/
def rollWindow (hist : List HistPair) (w : Nat) : List ℚ :=
  (hist.reverse.take w).map (fun p => p.2)

/-- Modelled from the spec: rolling mean over a trailing window; 0 when
the window is empty. -/
def rollMean (hist : List HistPair) (w : Nat) : ℚ :=
  let xs := rollWindow hist w
  if xs.length = 0 then 0 else xs.sum / xs.length

/-- Modelled from the spec: rolling variance (squared standard
deviation) over a trailing window; 0 when the window is empty. -/
def rollVar (hist : List HistPair) (w : Nat) : ℚ :=
  let xs := rollWindow hist w
  if xs.length = 0 then 0
  else (xs.map (fun x => (x - rollMean hist w) ^ 2)).sum / xs.length

/-- Feature row of the engine, from the specification data model:
calendar fields, lag features at offsets 1h..24h, rolling statistics
over trailing 3h and 24h windows, and the optional supervised target
(none for future/inference rows). -/
structure FeatureRow where
  meter_id : Nat
  timestamp : Nat
  hour : Nat
  day_of_week : Nat
  month : Nat
  quarter : Nat
  is_weekend : Bool
  day_of_year : Nat
  lag_1h : ℚ
  lag_2h : ℚ
  lag_3h : ℚ
  lag_6h : ℚ
  lag_12h : ℚ
  lag_24h : ℚ
  roll_mean_3h : ℚ
  roll_var_3h : ℚ
  roll_mean_24h : ℚ
  roll_var_24h : ℚ
  target : Option ℚ
deriving DecidableEq

/-- Modelled from the spec: build one FeatureRow for meter m at
timestamp t from the strict history hist (timestamp/value pairs all
strictly earlier than t) and an optional supervised target. -/
def mkFeatureRow (m t : Nat) (hist : List HistPair) (tgt : Option ℚ) : FeatureRow :=
  { meter_id := m
    timestamp := t
    hour := hourOf t
    day_of_week := dowOf t
    month := monthOfDoy (doyOf t)
    quarter := (monthOfDoy (doyOf t) - 1) / 3 + 1
    is_weekend := decide (5 ≤ dowOf t)
    day_of_year := doyOf t
    lag_1h := lagFeature hist t 1
    lag_2h := lagFeature hist t 2
    lag_3h := lagFeature hist t 3
    lag_6h := lagFeature hist t 6
    lag_12h := lagFeature hist t 12
    lag_24h := lagFeature hist t 24
    roll_mean_3h := rollMean hist 3
    roll_var_3h := rollVar hist 3
    roll_mean_24h := rollMean hist 24
    roll_var_24h := rollVar hist 24
    target := tgt }

/-- Projection dropping the supervised target: the part of a FeatureRow
fed to a predictor (the model input columns). -/
def inputFeatures (fr : FeatureRow) : FeatureRow := { fr with target := none }

/-- Modelled from the spec: the cleaned series as timestamp/value pairs
of the selected target column. -/
def pairsOf (tt : TargetType) (cleaned : List ConsumptionRecord) : List HistPair :=
  cleaned.map (fun r => (r.timestamp, targetValue tt r))

/-- Modelled from the spec: strict history of a timestamp: the pairs of
the cleaned series with strictly earlier timestamps. -/
def histBefore (pairs : List HistPair) (t : Nat) : List HistPair :=
  pairs.filter (fun p => decide (p.1 < t))

/-- Modelled from the spec: supervised feature rows, one per cleaned
record, each computed from the strict history of its timestamp. -/
def buildRows (tt : TargetType) (m : Nat) (cleaned : List ConsumptionRecord) :
    List FeatureRow :=
  cleaned.map (fun r =>
    mkFeatureRow m r.timestamp (histBefore (pairsOf tt cleaned) r.timestamp)
      (some (targetValue tt r)))

/-- Minimum number of hourly observations the Feature Builder requires. -/
def minObservations : Nat := 48

/-- Modelled from the spec: the Feature Builder: clean the series
(dedup-keep-first, sort by timestamp), fail with InsufficientDataError
when fewer than 48 observations remain, otherwise emit one FeatureRow
per distinct timestamp. -/
def buildFeatures (tt : TargetType) (m : Nat) (records : List ConsumptionRecord) :
    Except FcError (List FeatureRow) :=
  let cleaned := cleanSeries records
  if cleaned.length < minObservations then .error .insufficientData
  else .ok (buildRows tt m cleaned)

/-- Training split, from the specification data model: ordered pair of
train and test feature rows. -/
structure TrainingSplit where
  train : List FeatureRow
  test : List FeatureRow
deriving DecidableEq

/-- Modelled from the spec: the split index of the Dataset Splitter,
the floor of n times (1 - test_fraction). -/
def splitIndex (n : Nat) (f : ℚ) : Nat :=
  Int.toNat ⌊(n : ℚ) * (1 - f)⌋

/-- Minimum row count of each partition required by the splitter. -/
def minPartitionRows : Nat := 10

/-- Modelled from the spec: the Dataset Splitter: rows before the split
index are train, the rest test, no shuffling; fails with
InsufficientDataError when either partition has fewer than 10 rows. -/
def splitDataset (rows : List FeatureRow) (f : ℚ) : Except FcError TrainingSplit :=
  let idx := splitIndex rows.length f
  let tr := rows.take idx
  let te := rows.drop idx
  if tr.length < minPartitionRows ∨ te.length < minPartitionRows then
    .error .insufficientData
  else .ok ⟨tr, te⟩

/-- Modelled from the spec: MAPE over true/predicted pairs: rows whose
true value is zero are excluded from the denominator set; when no
nonzero true value exists the metric is undefined (none). -/
def mape (pairs : List (ℚ × ℚ)) : Option ℚ :=
  let nz := pairs.filter (fun p => decide (p.1 ≠ 0))
  if nz.length = 0 then none
  else some ((nz.map (fun p => |p.1 - p.2| / |p.1|)).sum * 100 / nz.length)

/-- Accuracy metrics of a trained model, from the specification data
model; rmse_sq holds the mean squared error (the square of RMSE). -/
structure Metrics where
  mae : ℚ
  rmse_sq : ℚ
  mape : Option ℚ
deriving DecidableEq

/-- Modelled from the spec: metrics computed over the true/predicted
pairs of the held-out test partition only. -/
def computeMetrics (pairs : List (ℚ × ℚ)) : Metrics :=
  { mae := if pairs.length = 0 then 0
      else (pairs.map (fun p => |p.1 - p.2|)).sum / pairs.length
    rmse_sq := if pairs.length = 0 then 0
      else (pairs.map (fun p => (p.1 - p.2) ^ 2)).sum / pairs.length
    mape := mape pairs }

/-- Trained model, from the specification data model; each member
estimator is modelled as a function from the model input columns to a
predicted value. -/
structure TrainedModel where
  meter_id : Nat
  target_type : TargetType
  members : List (FeatureRow → ℚ)
  trained_at : Nat
  metrics : Metrics

/-- Modelled from the spec: the ensemble prediction is the arithmetic
mean of the member estimators outputs. -/
def ensemblePredict (model : TrainedModel) (fr : FeatureRow) : ℚ :=
  (model.members.map (fun g => g fr)).sum / model.members.length

/-- Model Store, from the specification: maps (meter_id, target_type)
to a TrainedModel. -/
structure ModelStore where
  entries : List ((Nat × TargetType) × TrainedModel)

/-- Modelled from the spec: load returns the stored model for the key,
or none when no model has ever been trained for it; it never trains as
a side effect. -/
def ModelStore.load (st : ModelStore) (m : Nat) (tt : TargetType) :
    Option TrainedModel :=
  match st.entries.find? (fun e => decide (e.1 = (m, tt))) with
  | some e => some e.2
  | none => none

/-- Modelled from the spec: save persists the model under the key
(meter_id, target_type), overwriting any prior model for that key. -/
def ModelStore.save (st : ModelStore) (model : TrainedModel) : ModelStore :=
  ⟨((model.meter_id, model.target_type), model) ::
    st.entries.filter (fun e => decide (e.1 ≠ (model.meter_id, model.target_type)))⟩

/-- Modelled from the spec: the exists operation of the Model Store. -/
def ModelStore.existsModel (st : ModelStore) (m : Nat) (tt : TargetType) : Bool :=
  (st.load m tt).isSome

/-- Forecast horizon: daily = next 24 hourly points, weekly = next 7
daily points. -/
inductive Horizon where
  | daily
  | weekly
deriving DecidableEq

/-- Number of forecast points of a horizon. -/
def Horizon.steps : Horizon → Nat
  | .daily => 24
  | .weekly => 7

/-- Hours between consecutive forecast points of a horizon. -/
def Horizon.stepHours : Horizon → Nat
  | .daily => 1
  | .weekly => 24

/-- Forecast point, from the specification data model. -/
structure ForecastPoint where
  timestamp : Nat
  predicted_value : ℚ
  horizon_index : Nat
deriving DecidableEq

/-- Summary record of a forecast, from the specification. -/
structure ForecastSummary where
  total : ℚ
  average : ℚ
  peak_value : ℚ
  peak_timestamp : Nat
deriving DecidableEq

/-- Result of a forecast request: ordered points plus the summary. -/
structure ForecastResult where
  points : List ForecastPoint
  summary : ForecastSummary
deriving DecidableEq

/-- Modelled from the spec: the recursive forecasting loop: step n + 1
builds a future FeatureRow from the buffer of history and previously
predicted values (strictly earlier timestamps only), applies the
ensemble averaging rule, clamps negative predictions to zero, and
appends the prediction to the buffer so later steps chain off it. -/
def runForecast (model : TrainedModel) (m lastTs stepH : Nat) (hist : List HistPair) :
    Nat → List ForecastPoint × List HistPair
  | 0 => ([], hist)
  | n + 1 =>
      let prev := runForecast model m lastTs stepH hist n
      let ts := lastTs + stepH * (n + 1)
      let fr := mkFeatureRow m ts (histBefore prev.2 ts) none
      let v := max 0 (ensemblePredict model fr)
      (prev.1 ++ [⟨ts, v, n⟩], prev.2 ++ [(ts, v)])

/-- Timestamp of the last record of a cleaned series, 0 when empty. -/
def lastTimestamp (cleaned : List ConsumptionRecord) : Nat :=
  match cleaned.getLast? with
  | some r => r.timestamp
  | none => 0

/-- Modelled from the spec: the point of a forecast achieving the peak
value (the first point attaining the maximum). -/
def peakPoint (pts : List ForecastPoint) : ForecastPoint :=
  pts.foldl (fun best p => if best.predicted_value < p.predicted_value then p else best)
    (pts.headD ⟨0, 0, 0⟩)

/-- Modelled from the spec: aggregate forecast points into the summary
record with total, average, peak_value and peak_timestamp. -/
def summarize (pts : List ForecastPoint) : ForecastSummary :=
  { total := (pts.map (fun p => p.predicted_value)).sum
    average := (pts.map (fun p => p.predicted_value)).sum / pts.length
    peak_value := (peakPoint pts).predicted_value
    peak_timestamp := (peakPoint pts).timestamp }

/-- Modelled from the spec: forecast of a single-model target (import
or export): load the trained model (ModelNotTrainedError when absent,
never training as a side effect) and run the recursive loop over the
requested horizon. -/
def singleTargetForecast (st : ModelStore) (records : List ConsumptionRecord)
    (m : Nat) (h : Horizon) (tt : TargetType) : Except FcError (List ForecastPoint) :=
  match st.load m tt with
  | none => .error .modelNotTrained
  | some model =>
      let cleaned := cleanSeries records
      .ok (runForecast model m (lastTimestamp cleaned) h.stepHours
        (pairsOf tt cleaned) h.steps).1

/-- Modelled from the spec: combine aligned import and export forecast
points into a net point by subtracting the predicted values. -/
def netCombine (a b : ForecastPoint) : ForecastPoint :=
  { timestamp := a.timestamp
    predicted_value := a.predicted_value - b.predicted_value
    horizon_index := a.horizon_index }

/-- Modelled from the spec: a forecast request: for import or export,
run the single-target forecast; for net, run the import and export
forecasts independently and subtract per aligned timestamp.  The
request never writes to the Model Store: the returned store is the
input store, unchanged. -/
def forecastRequest (st : ModelStore) (records : List ConsumptionRecord)
    (m : Nat) (h : Horizon) (tt : TargetType) :
    ModelStore × Except FcError ForecastResult :=
  match tt with
  | .net =>
      match singleTargetForecast st records m h .imp,
            singleTargetForecast st records m h .exp with
      | .ok ip, .ok ep =>
          let pts := List.zipWith netCombine ip ep
          (st, .ok ⟨pts, summarize pts⟩)
      | _, _ => (st, .error .modelNotTrained)
  | tt =>
      match singleTargetForecast st records m h tt with
      | .ok pts => (st, .ok ⟨pts, summarize pts⟩)
      | .error e => (st, .error e)

/-- Hourly chart point of the frontend DayForecast component (fields of
the HourPoint type in DayForecast.tsx; both optional fields are present
on every element of the hard-coded array). -/
structure HourPoint where
  hour : Nat
  consumption : ℚ
  forecast : ℚ
deriving DecidableEq

/-- Daily chart point of the frontend WeekForecast component (fields of
the DayPoint type in WeekForecast.tsx). -/
structure DayPoint where
  day : String
  consumption : ℚ
  forecast : ℚ
deriving DecidableEq

/-- Hard-coded hourlyData array of DayForecast.tsx. -/
def hourlyData : List HourPoint :=
  [⟨0, 0.25, 2.8⟩, ⟨1, 0.18, 2.9⟩, ⟨2, 0.14, 2.7⟩, ⟨3, 0.12, 3.0⟩,
   ⟨4, 0.1, 2.6⟩, ⟨5, 0.22, 3.1⟩, ⟨6, 0.45, 3.3⟩, ⟨7, 0.75, 3.5⟩,
   ⟨8, 0.6, 3.7⟩, ⟨9, 0.4, 3.2⟩, ⟨10, 0.35, 3.4⟩, ⟨11, 0.3, 3.0⟩,
   ⟨12, 0.55, 3.6⟩, ⟨13, 0.65, 3.5⟩, ⟨14, 0.48, 3.7⟩, ⟨15, 0.52, 3.8⟩,
   ⟨16, 0.9, 4.0⟩, ⟨17, 1.2, 4.2⟩, ⟨18, 1.4, 4.5⟩, ⟨19, 1.05, 4.3⟩,
   ⟨20, 0.85, 3.9⟩, ⟨21, 0.65, 3.6⟩, ⟨22, 0.4, 3.1⟩, ⟨23, 0.3, 2.9⟩]

/-- Hard-coded weeklyData array of WeekForecast.tsx. -/
def weeklyData : List DayPoint :=
  [⟨"Mon", 12.4, 3.2⟩, ⟨"Tue", 10.8, 3.0⟩, ⟨"Wed", 14.2, 3.5⟩,
   ⟨"Thu", 11.6, 3.1⟩, ⟨"Fri", 15.9, 3.8⟩, ⟨"Sat", 18.3, 4.0⟩,
   ⟨"Sun", 9.7, 2.7⟩]

/-- Embedding of the DayForecast React component: it takes no props and
renders the hard-coded hourlyData array regardless of any surrounding
application state (modelled by the arbitrary state argument). -/
def DayForecast {σ : Type} (_state : σ) : List HourPoint := hourlyData

/-- Embedding of the WeekForecast React component: it takes no props
and renders the hard-coded weeklyData array regardless of any
surrounding application state. -/
def WeekForecast {σ : Type} (_state : σ) : List DayPoint := weeklyData

/-- Strict timestamp ordering on records. -/
def recLT (a b : ConsumptionRecord) : Prop := a.timestamp < b.timestamp

instance : IsAntisymm ConsumptionRecord recLT :=
  ⟨fun _ _ h1 h2 => absurd (Nat.lt_trans h1 h2) (Nat.lt_irrefl _)⟩

/-- Concrete demonstration series: 48 hourly records for meter 7. -/
def demoRecs : List ConsumptionRecord :=
  (List.range 48).map (fun i => ⟨7, i, (1 : ℚ) + i, (i : ℚ) / 2⟩)

/-- Copy of demoRecs with the record at timestamp 3 poisoned. -/
def demoRecsP : List ConsumptionRecord :=
  demoRecs.map (fun r =>
    if r.timestamp = 3 then { r with import_value := 999 } else r)

/-- Feature rows built from the demonstration series. -/
def demoRows : List FeatureRow := buildRows .imp 7 (cleanSeries demoRecs)

/-- Feature rows built from the poisoned demonstration series. -/
def demoRowsP : List FeatureRow := buildRows .imp 7 (cleanSeries demoRecsP)

/-- Row at timestamp 3 of the demonstration feature rows. -/
def demoRow1 : FeatureRow := demoRows.getD 3 (mkFeatureRow 0 0 [] none)

/-- Row at timestamp 3 of the poisoned demonstration feature rows. -/
def demoRowP1 : FeatureRow := demoRowsP.getD 3 (mkFeatureRow 0 0 [] none)

/-- Demonstration series carrying every timestamp twice. -/
def demoDupRecs : List ConsumptionRecord :=
  (List.range 96).map (fun i => ⟨3, i / 2, (i : ℚ), 0⟩)

/-- Feature rows built from the duplicated demonstration series. -/
def demoDupRows : List FeatureRow := buildRows .imp 3 (cleanSeries demoDupRecs)

/-- Short demonstration series of 20 hourly records. -/
def demoShortRecs : List ConsumptionRecord :=
  (List.range 20).map (fun i => ⟨9, i, (i : ℚ), 0⟩)

/-- Fifty time-ordered feature rows for the splitter demonstration. -/
def demoRows50 : List FeatureRow :=
  (List.range 50).map (fun i => mkFeatureRow 1 i [] none)

/-- Extract the split of a successful splitter run. -/
def fromOkSplit (e : Except FcError TrainingSplit) : TrainingSplit :=
  match e with
  | .ok sp => sp
  | .error _ => ⟨[], []⟩

/-- Concrete split of the fifty demonstration rows at test fraction
one fifth. -/
def demoSplit : TrainingSplit := fromOkSplit (splitDataset demoRows50 (1 / 5))

/-- Demonstration metrics record. -/
def demoMetrics : Metrics := ⟨0, 0, none⟩

/-- Trained model whose single member estimator predicts the constant c. -/
def constModel (m : Nat) (tt : TargetType) (c : ℚ) : TrainedModel :=
  ⟨m, tt, [fun _ => c], 0, demoMetrics⟩

/-- Store holding constant import and export models for meter 5. -/
def demoStore : ModelStore :=
  ⟨[((5, .imp), constModel 5 .imp 4), ((5, .exp), constModel 5 .exp 1)]⟩

/-- Store whose export model predicts more than its import model. -/
def negStore : ModelStore :=
  ⟨[((5, .imp), constModel 5 .imp 0), ((5, .exp), constModel 5 .exp 5)]⟩

/-- Extract the result of a successful forecast request. -/
def fromOkRes (e : Except FcError ForecastResult) : ForecastResult :=
  match e with
  | .ok r => r
  | .error _ => ⟨[], ⟨0, 0, 0, 0⟩⟩

/-- Extract the points of a successful single-target forecast. -/
def fromOkPts (e : Except FcError (List ForecastPoint)) : List ForecastPoint :=
  match e with
  | .ok l => l
  | .error _ => []

/-- Concrete daily import forecast of the demonstration store. -/
def demoDailyRes : ForecastResult :=
  fromOkRes (forecastRequest demoStore [] 5 .daily .imp).2

/-- Concrete weekly import forecast of the demonstration store. -/
def demoWeeklyRes : ForecastResult :=
  fromOkRes (forecastRequest demoStore [] 5 .weekly .imp).2

/-- Concrete daily net forecast of the demonstration store. -/
def demoNetRes : ForecastResult :=
  fromOkRes (forecastRequest demoStore [] 5 .daily .net).2

/-- Concrete daily import points of the demonstration store. -/
def demoImpPts : List ForecastPoint :=
  fromOkPts (singleTargetForecast demoStore [] 5 .daily .imp)

/-- Concrete daily export points of the demonstration store. -/
def demoExpPts : List ForecastPoint :=
  fromOkPts (singleTargetForecast demoStore [] 5 .daily .exp)

/-- Concrete daily net forecast of the store whose export model
dominates its import model. -/
def negNetRes : ForecastResult :=
  fromOkRes (forecastRequest negStore [] 5 .daily .net).2

/-- Store with no trained model at all. -/
def emptyStore : ModelStore := ⟨[]⟩


theorem dedupGo_subset {seen : List Nat} {l : List ConsumptionRecord}
    {r : ConsumptionRecord} (h : r ∈ dedupGo seen l) : r ∈ l := by
  induction l generalizing seen with
  | nil => simp [dedupGo] at h
  | cons x xs ih =>
      by_cases hx : x.timestamp ∈ seen
      · simp only [dedupGo, if_pos hx] at h
        exact List.mem_cons_of_mem x (ih h)
      · simp only [dedupGo, if_neg hx, List.mem_cons] at h
        rcases h with h | h
        · exact h ▸ List.mem_cons_self x xs
        · exact List.mem_cons_of_mem x (ih h)

theorem mem_ts_dedupGo {seen : List Nat} {l : List ConsumptionRecord} {t : Nat} :
    t ∈ (dedupGo seen l).map (fun r => r.timestamp) ↔
      t ∉ seen ∧ t ∈ l.map (fun r => r.timestamp) := by
  induction l generalizing seen with
  | nil => simp [dedupGo]
  | cons x xs ih =>
      by_cases hx : x.timestamp ∈ seen
      · simp only [dedupGo, if_pos hx, List.map_cons, List.mem_cons, ih]
        constructor
        · rintro ⟨hns, hmem⟩
          exact ⟨hns, Or.inr hmem⟩
        · rintro ⟨hns, hmem | hmem⟩
          · exact absurd (hmem ▸ hx) hns
          · exact ⟨hns, hmem⟩
      · simp only [dedupGo, if_neg hx, List.map_cons, List.mem_cons, ih, List.mem_cons]
        constructor
        · rintro (h | ⟨hns, hmem⟩)
          · refine ⟨h ▸ hx, Or.inl h⟩
          · exact ⟨fun hc => hns (Or.inr hc), Or.inr hmem⟩
        · rintro ⟨hns, h | hmem⟩
          · exact Or.inl h
          · by_cases he : t = x.timestamp
            · exact Or.inl he
            · refine Or.inr ⟨?_, hmem⟩
              simp only [List.mem_cons, not_or]
              exact ⟨he, hns⟩

theorem nodup_ts_dedupGo {seen : List Nat} {l : List ConsumptionRecord} :
    ((dedupGo seen l).map (fun r => r.timestamp)).Nodup := by
  induction l generalizing seen with
  | nil => simp [dedupGo]
  | cons x xs ih =>
      by_cases hx : x.timestamp ∈ seen
      · simpa only [dedupGo, if_pos hx] using ih
      · simp only [dedupGo, if_neg hx, List.map_cons, List.nodup_cons]
        refine ⟨fun hc => ?_, ih⟩
        have := (mem_ts_dedupGo).mp hc
        exact this.1 (List.mem_cons_self _ _)

theorem ts_not_seen_of_mem_dedupGo {seen : List Nat} {l : List ConsumptionRecord}
    {r : ConsumptionRecord} (h : r ∈ dedupGo seen l) : r.timestamp ∉ seen := by
  have hmem : r.timestamp ∈ (dedupGo seen l).map (fun q => q.timestamp) :=
    List.mem_map_of_mem _ h
  exact (mem_ts_dedupGo.mp hmem).1

theorem find_of_mem_dedupGo {seen : List Nat} {l : List ConsumptionRecord}
    {r : ConsumptionRecord} (h : r ∈ dedupGo seen l) :
    l.find? (fun x => decide (x.timestamp = r.timestamp)) = some r := by
  induction l generalizing seen with
  | nil => simp [dedupGo] at h
  | cons x xs ih =>
      by_cases hx : x.timestamp ∈ seen
      · rw [dedupGo, if_pos hx] at h
        have hne : x.timestamp ≠ r.timestamp := by
          intro he
          exact ts_not_seen_of_mem_dedupGo h (he ▸ hx)
        rw [List.find?_cons]
        simp only [hne, decide_eq_true_eq, if_neg]
        simpa [hne] using ih h
      · rw [dedupGo, if_neg hx] at h
        rcases List.mem_cons.mp h with he | hm
        · subst he
          simp [List.find?_cons]
        · have hne : x.timestamp ≠ r.timestamp := by
            intro he
            exact ts_not_seen_of_mem_dedupGo hm (he ▸ List.mem_cons_self _ _)
          rw [List.find?_cons]
          simp only [hne, decide_eq_true_eq, if_neg]
          simpa [hne] using ih hm

theorem length_dedupGo_le {seen : List Nat} {l : List ConsumptionRecord} :
    (dedupGo seen l).length ≤ l.length := by
  induction l generalizing seen with
  | nil => simp [dedupGo]
  | cons x xs ih =>
      by_cases hx : x.timestamp ∈ seen
      · rw [dedupGo, if_pos hx]
        exact Nat.le_succ_of_le ih
      · rw [dedupGo, if_neg hx]
        simpa using Nat.succ_le_succ ih

theorem pairwise_lt_of_sorted_nodup {l : List ConsumptionRecord}
    (hs : List.Sorted recLE l)
    (hn : (l.map (fun r => r.timestamp)).Nodup) :
    List.Pairwise recLT l := by
  have hp : List.Pairwise (fun a b : ConsumptionRecord => a.timestamp ≠ b.timestamp) l :=
    List.pairwise_map.mp hn
  exact (List.Pairwise.and hs hp).imp (fun h => Nat.lt_of_le_of_ne h.1 h.2)

theorem nodup_ts_sort {d : List ConsumptionRecord}
    (hn : (d.map (fun r => r.timestamp)).Nodup) :
    ((List.insertionSort recLE d).map (fun r => r.timestamp)).Nodup := by
  have hperm := (List.perm_insertionSort recLE d).map (fun r => r.timestamp)
  exact hperm.nodup_iff.mpr hn

theorem pairwise_lt_cleanSeries (records : List ConsumptionRecord) :
    List.Pairwise recLT (cleanSeries records) := by
  refine pairwise_lt_of_sorted_nodup (List.sorted_insertionSort recLE _) ?_
  exact nodup_ts_sort nodup_ts_dedupGo

theorem filter_insertionSort {d : List ConsumptionRecord} (p : ConsumptionRecord → Bool)
    (hn : (d.map (fun r => r.timestamp)).Nodup) :
    (List.insertionSort recLE d).filter p = List.insertionSort recLE (d.filter p) := by
  refine List.eq_of_perm_of_sorted (r := recLT) ?_ ?_ ?_
  · exact ((List.perm_insertionSort recLE d).filter p).trans
      (List.perm_insertionSort recLE (d.filter p)).symm
  · exact List.Pairwise.sublist (List.filter_sublist _)
      (pairwise_lt_of_sorted_nodup (List.sorted_insertionSort recLE d) (nodup_ts_sort hn))
  · refine pairwise_lt_of_sorted_nodup (List.sorted_insertionSort recLE _) ?_
    refine nodup_ts_sort (List.Nodup.sublist ?_ hn)
    exact (List.filter_sublist d).map (fun r => r.timestamp)

theorem filter_dedupGo_congr (P : Nat → Bool) {l : List ConsumptionRecord}
    {seen1 seen2 : List Nat}
    (hmem : ∀ u, P u = true → (u ∈ seen1 ↔ u ∈ seen2)) :
    (dedupGo seen1 l).filter (fun r => P r.timestamp) =
      (dedupGo seen2 l).filter (fun r => P r.timestamp) := by
  induction l generalizing seen1 seen2 with
  | nil => simp [dedupGo]
  | cons x xs ih =>
      by_cases h1 : x.timestamp ∈ seen1 <;> by_cases h2 : x.timestamp ∈ seen2
      · rw [dedupGo, if_pos h1, dedupGo, if_pos h2]
        exact ih hmem
      · have hPx : P x.timestamp = false := by
          cases hP : P x.timestamp with
          | false => rfl
          | true => exact absurd ((hmem _ hP).mp h1) h2
        rw [dedupGo, if_pos h1, dedupGo, if_neg h2, List.filter_cons_of_neg (by simp [hPx])]
        refine ih (fun u hu => ?_)
        rcases (hmem u hu) with ⟨hf, hb⟩
        constructor
        · intro hs1
          exact List.mem_cons_of_mem _ (hf hs1)
        · intro hs2
          rcases List.mem_cons.mp hs2 with he | hs2
          · exact absurd hPx (by simp [he ▸ hu])
          · exact hb hs2
      · have hPx : P x.timestamp = false := by
          cases hP : P x.timestamp with
          | false => rfl
          | true => exact absurd ((hmem _ hP).mpr h2) h1
        rw [dedupGo, if_neg h1, dedupGo, if_pos h2, List.filter_cons_of_neg (by simp [hPx])]
        refine ih (fun u hu => ?_)
        rcases (hmem u hu) with ⟨hf, hb⟩
        constructor
        · intro hs1
          rcases List.mem_cons.mp hs1 with he | hs1
          · exact absurd hPx (by simp [he ▸ hu])
          · exact hf hs1
        · intro hs2
          exact List.mem_cons_of_mem _ (hb hs2)
      · rw [dedupGo, if_neg h1, dedupGo, if_neg h2]
        cases hP : P x.timestamp with
        | false =>
            rw [List.filter_cons_of_neg (by simp [hP]), List.filter_cons_of_neg (by simp [hP])]
            refine ih (fun u hu => ?_)
            rcases (hmem u hu) with ⟨hf, hb⟩
            constructor
            · intro hs1
              rcases List.mem_cons.mp hs1 with he | hs1
              · exact he ▸ List.mem_cons_self _ _
              · exact List.mem_cons_of_mem _ (hf hs1)
            · intro hs2
              rcases List.mem_cons.mp hs2 with he | hs2
              · exact he ▸ List.mem_cons_self _ _
              · exact List.mem_cons_of_mem _ (hb hs2)
        | true =>
            rw [List.filter_cons_of_pos (by simp [hP]), List.filter_cons_of_pos (by simp [hP])]
            refine congrArg (x :: ·) (ih (fun u hu => ?_))
            rcases (hmem u hu) with ⟨hf, hb⟩
            constructor
            · intro hs1
              rcases List.mem_cons.mp hs1 with he | hs1
              · exact he ▸ List.mem_cons_self _ _
              · exact List.mem_cons_of_mem _ (hf hs1)
            · intro hs2
              rcases List.mem_cons.mp hs2 with he | hs2
              · exact he ▸ List.mem_cons_self _ _
              · exact List.mem_cons_of_mem _ (hb hs2)

theorem dedupGo_filter (P : Nat → Bool) {l : List ConsumptionRecord}
    {seen : List Nat} :
    dedupGo seen (l.filter (fun r => P r.timestamp)) =
      (dedupGo seen l).filter (fun r => P r.timestamp) := by
  induction l generalizing seen with
  | nil => simp [dedupGo]
  | cons x xs ih =>
      cases hP : P x.timestamp with
      | true =>
          rw [List.filter_cons_of_pos (by simp [hP])]
          by_cases hx : x.timestamp ∈ seen
          · rw [dedupGo, if_pos hx, dedupGo, if_pos hx]
            exact ih
          · rw [dedupGo, if_neg hx, dedupGo, if_neg hx,
              List.filter_cons_of_pos (by simp [hP])]
            exact congrArg (x :: ·) ih
      | false =>
          rw [List.filter_cons_of_neg (by simp [hP])]
          by_cases hx : x.timestamp ∈ seen
          · rw [dedupGo, if_pos hx]
            exact ih
          · rw [dedupGo, if_neg hx, List.filter_cons_of_neg (by simp [hP])]
            rw [ih]
            refine filter_dedupGo_congr P (fun u hu => ?_)
            constructor
            · intro hs
              exact List.mem_cons_of_mem _ hs
            · intro hs
              rcases List.mem_cons.mp hs with he | hs
              · exact absurd hP (by simp [he ▸ hu])
              · exact hs

theorem cleanSeries_filter (records : List ConsumptionRecord) (P : Nat → Bool) :
    (cleanSeries records).filter (fun r => P r.timestamp) =
      cleanSeries (records.filter (fun r => P r.timestamp)) := by
  unfold cleanSeries dedupKeepFirst
  rw [filter_insertionSort _ nodup_ts_dedupGo, dedupGo_filter]

theorem buildFeatures_ok {tt : TargetType} {m : Nat}
    {records : List ConsumptionRecord} {rows : List FeatureRow}
    (h : buildFeatures tt m records = .ok rows) :
    ¬(cleanSeries records).length < minObservations ∧
      rows = buildRows tt m (cleanSeries records) := by
  by_cases hlen : (cleanSeries records).length < minObservations
  · rw [buildFeatures] at h
    simp only [hlen, if_true] at h
    exact absurd h (by simp)
  · rw [buildFeatures] at h
    simp only [hlen, if_neg, not_false_eq_true, Except.ok.injEq] at h
    exact ⟨hlen, h.symm⟩

theorem histBefore_pairsOf (tt : TargetType) (c : List ConsumptionRecord) (t : Nat) :
    histBefore (pairsOf tt c) t =
      pairsOf tt (c.filter (fun r => decide (r.timestamp < t))) := by
  unfold histBefore pairsOf
  rw [List.filter_map]
  rfl

theorem inputFeatures_mkFeatureRow (m t : Nat) (hist : List HistPair) (tgt : Option ℚ) :
    inputFeatures (mkFeatureRow m t hist tgt) = mkFeatureRow m t hist none := rfl

/-- C1: no-leakage invariant: for series accepted by the Feature
Builder, a feature row at timestamp t has lag and rolling columns that
depend only on records strictly earlier than t: poisoning (changing,
adding or removing) records at or after t, expressed as agreement of
the two raw series on all records strictly before t, leaves the model
input columns of the row at t, and hence every prediction computed from
them, unchanged. -/
theorem noLeakage_poisoned_row (tt : TargetType) (m : Nat)
    (s1 s2 : List ConsumptionRecord) (t : Nat)
    (rows1 rows2 : List FeatureRow) (r1 r2 : FeatureRow)
    (h1 : buildFeatures tt m s1 = .ok rows1)
    (h2 : buildFeatures tt m s2 = .ok rows2)
    (hagree : s1.filter (fun r => decide (r.timestamp < t)) =
      s2.filter (fun r => decide (r.timestamp < t)))
    (hr1 : r1 ∈ rows1) (hr2 : r2 ∈ rows2)
    (ht1 : r1.timestamp = t) (ht2 : r2.timestamp = t) :
    inputFeatures r1 = inputFeatures r2 ∧
      ∀ predict : FeatureRow → ℚ,
        predict (inputFeatures r1) = predict (inputFeatures r2) := by
  obtain ⟨-, hrw1⟩ := buildFeatures_ok h1
  obtain ⟨-, hrw2⟩ := buildFeatures_ok h2
  rw [hrw1] at hr1
  rw [hrw2] at hr2
  rw [buildRows] at hr1 hr2
  obtain ⟨rec1, hrec1, heq1⟩ := List.mem_map.mp hr1
  obtain ⟨rec2, hrec2, heq2⟩ := List.mem_map.mp hr2
  rw [← heq1] at ht1
  rw [← heq2] at ht2
  simp only [mkFeatureRow] at ht1 ht2
  have hkey : histBefore (pairsOf tt (cleanSeries s1)) t =
      histBefore (pairsOf tt (cleanSeries s2)) t := by
    rw [histBefore_pairsOf, histBefore_pairsOf,
      cleanSeries_filter s1 (fun u => decide (u < t)),
      cleanSeries_filter s2 (fun u => decide (u < t)), hagree]
  have hmain : inputFeatures r1 = inputFeatures r2 := by
    rw [← heq1, ← heq2, inputFeatures_mkFeatureRow, inputFeatures_mkFeatureRow,
      ht1, ht2, hkey]
  exact ⟨hmain, fun predict => congrArg predict hmain⟩

theorem map_ts_buildRows (tt : TargetType) (m : Nat) (cleaned : List ConsumptionRecord) :
    (buildRows tt m cleaned).map (fun fr => fr.timestamp) =
      cleaned.map (fun r => r.timestamp) := by
  rw [buildRows, List.map_map]
  rfl

theorem nodup_ts_cleanSeries (records : List ConsumptionRecord) :
    ((cleanSeries records).map (fun r => r.timestamp)).Nodup := by
  rw [cleanSeries, dedupKeepFirst]
  exact nodup_ts_sort nodup_ts_dedupGo

theorem mem_ts_cleanSeries (records : List ConsumptionRecord) (t : Nat) :
    t ∈ (cleanSeries records).map (fun r => r.timestamp) ↔
      t ∈ records.map (fun r => r.timestamp) := by
  rw [cleanSeries, dedupKeepFirst]
  have hperm := (List.perm_insertionSort recLE (dedupGo [] records)).map
    (fun r => r.timestamp)
  rw [hperm.mem_iff, mem_ts_dedupGo]
  simp

/-- C8: duplicate timestamps are recovered locally: the Feature Builder
never fails because of duplicates (its only failure is
InsufficientDataError on a short cleaned series); on success the output
has exactly one FeatureRow per distinct input timestamp, and the record
backing each row is the first input record carrying that timestamp. -/
theorem duplicateTimestampPolicy (tt : TargetType) (m : Nat)
    (records : List ConsumptionRecord) :
    (∀ e, buildFeatures tt m records = .error e →
      e = FcError.insufficientData ∧
        (cleanSeries records).length < minObservations) ∧
    (∀ rows, buildFeatures tt m records = .ok rows →
      (rows.map (fun fr => fr.timestamp)).Nodup ∧
      (∀ t, t ∈ rows.map (fun fr => fr.timestamp) ↔
        t ∈ records.map (fun r => r.timestamp)) ∧
      (∀ fr ∈ rows, ∃ r,
        records.find? (fun x => decide (x.timestamp = fr.timestamp)) = some r ∧
          fr.target = some (targetValue tt r))) := by
  constructor
  · intro e he
    rw [buildFeatures] at he
    by_cases hlen : (cleanSeries records).length < minObservations
    · simp only [hlen, if_true, Except.error.injEq] at he
      exact ⟨he.symm, hlen⟩
    · simp only [hlen, if_false] at he
      exact absurd he (by simp)
  · intro rows hok
    obtain ⟨-, hrw⟩ := buildFeatures_ok hok
    subst hrw
    refine ⟨?_, ?_, ?_⟩
    · rw [map_ts_buildRows]
      exact nodup_ts_cleanSeries records
    · intro t
      rw [map_ts_buildRows]
      exact mem_ts_cleanSeries records t
    · intro fr hfr
      rw [buildRows] at hfr
      obtain ⟨rec, hrec, heq⟩ := List.mem_map.mp hfr
      have hmem : rec ∈ dedupGo [] records := by
        rw [cleanSeries, dedupKeepFirst] at hrec
        exact (List.perm_insertionSort recLE _).mem_iff.mp hrec
      refine ⟨rec, ?_, ?_⟩
      · have hts : fr.timestamp = rec.timestamp := by rw [← heq]; rfl
        rw [hts]
        exact find_of_mem_dedupGo hmem
      · rw [← heq]
        rfl

/-- C9: a meter series with fewer than 48 hourly observations fails the
Feature Builder with InsufficientDataError and produces no feature
rows. -/
theorem insufficientHistoryFails (tt : TargetType) (m : Nat)
    (records : List ConsumptionRecord)
    (hshort : records.length < minObservations) :
    buildFeatures tt m records = .error FcError.insufficientData := by
  have hle : (cleanSeries records).length ≤ records.length := by
    rw [cleanSeries, dedupKeepFirst, List.length_insertionSort]
    exact length_dedupGo_le
  rw [buildFeatures]
  simp [Nat.lt_of_le_of_lt hle hshort]

/-- C4: the Dataset Splitter puts exactly the rows below the index
floor of n times (1 - test_fraction) into train and the rest into test,
in order, and on time-ordered feature rows every returned split is
strictly temporal: every train timestamp is below every test
timestamp. -/
theorem temporalSplit (rows : List FeatureRow) (f : ℚ) (sp : TrainingSplit)
    (hsorted : rows.Pairwise (fun a b => a.timestamp < b.timestamp))
    (hok : splitDataset rows f = .ok sp) :
    sp.train = rows.take (splitIndex rows.length f) ∧
    sp.test = rows.drop (splitIndex rows.length f) ∧
    sp.train ++ sp.test = rows ∧
    (∀ a ∈ sp.train, ∀ b ∈ sp.test, a.timestamp < b.timestamp) := by
  simp only [splitDataset] at hok
  by_cases hc : (rows.take (splitIndex rows.length f)).length < minPartitionRows ∨
      (rows.drop (splitIndex rows.length f)).length < minPartitionRows
  · simp only [hc, if_true] at hok
    exact absurd hok (by simp)
  · simp only [hc, if_false, Except.ok.injEq] at hok
    subst hok
    refine ⟨rfl, rfl, List.take_append_drop _ rows, ?_⟩
    have hsp := hsorted
    rw [← List.take_append_drop (splitIndex rows.length f) rows] at hsp
    exact (List.pairwise_append.mp hsp).2.2

/-- C10: the MAPE metric excludes rows with a zero true target from its
denominator set (prepending such a row never changes the metric), is
undefined when every test target is zero, and is numeric only when a
nonzero true target exists; the trainer metrics use exactly this
guarded computation. -/
theorem mapeZeroGuard :
    (∀ (x : ℚ) (pairs : List (ℚ × ℚ)), mape ((0, x) :: pairs) = mape pairs) ∧
    (∀ pairs : List (ℚ × ℚ), (∀ p ∈ pairs, p.1 = 0) → mape pairs = none) ∧
    (∀ (pairs : List (ℚ × ℚ)) (v : ℚ), mape pairs = some v →
      ∃ p ∈ pairs, p.1 ≠ 0) ∧
    (∀ pairs : List (ℚ × ℚ), (computeMetrics pairs).mape = mape pairs) := by
  refine ⟨?_, ?_, ?_, fun pairs => rfl⟩
  · intro x pairs
    have hstep : List.filter (fun p => decide (p.1 ≠ 0)) ((0, x) :: pairs) =
        List.filter (fun p => decide (p.1 ≠ 0)) pairs :=
      List.filter_cons_of_neg (by simp)
    simp only [mape, hstep]
  · intro pairs hz
    have hnil : pairs.filter (fun p => decide (p.1 ≠ 0)) = [] := by
      rw [List.filter_eq_nil_iff]
      intro a ha
      simp [hz a ha]
    simp only [mape]
    rw [hnil]
    simp
  · intro pairs v hv
    simp only [mape] at hv
    by_cases hn : (pairs.filter (fun p => decide (p.1 ≠ 0))).length = 0
    · rw [if_pos hn] at hv
      exact absurd hv (by simp)
    · have hne : pairs.filter (fun p => decide (p.1 ≠ 0)) ≠ [] := by
        intro he
        exact hn (by rw [he]; rfl)
      obtain ⟨p, hp⟩ := List.exists_mem_of_ne_nil _ hne
      have hmem := List.mem_filter.mp hp
      exact ⟨p, hmem.1, by simpa using hmem.2⟩

theorem runForecast_map_ts (model : TrainedModel) (m lastTs stepH : Nat)
    (hist : List HistPair) (n : Nat) :
    ((runForecast model m lastTs stepH hist n).1).map (fun p => p.timestamp) =
      (List.range n).map (fun i => lastTs + stepH * (i + 1)) := by
  induction n with
  | zero => rfl
  | succ k ih =>
      rw [List.range_succ]
      simp only [runForecast, List.map_append, List.map_cons, List.map_nil]
      rw [ih]

theorem runForecast_map_idx (model : TrainedModel) (m lastTs stepH : Nat)
    (hist : List HistPair) (n : Nat) :
    ((runForecast model m lastTs stepH hist n).1).map (fun p => p.horizon_index) =
      List.range n := by
  induction n with
  | zero => rfl
  | succ k ih =>
      rw [List.range_succ]
      simp only [runForecast, List.map_append, List.map_cons, List.map_nil]
      rw [ih]

theorem runForecast_length (model : TrainedModel) (m lastTs stepH : Nat)
    (hist : List HistPair) (n : Nat) :
    ((runForecast model m lastTs stepH hist n).1).length = n := by
  have hmap := runForecast_map_idx model m lastTs stepH hist n
  have := congrArg List.length hmap
  simpa using this

theorem runForecast_nonneg (model : TrainedModel) (m lastTs stepH : Nat)
    (hist : List HistPair) (n : Nat) :
    ∀ p ∈ (runForecast model m lastTs stepH hist n).1, 0 ≤ p.predicted_value := by
  induction n with
  | zero => intro p hp; simp [runForecast] at hp
  | succ k ih =>
      intro p hp
      simp only [runForecast, List.mem_append, List.mem_cons, List.not_mem_nil,
        or_false] at hp
      rcases hp with hp | hp
      · exact ih p hp
      · rw [hp]
        exact le_max_left 0 _

theorem foldl_peak_spec (l : List ForecastPoint) :
    ∀ init : ForecastPoint,
      (l.foldl (fun best p =>
          if best.predicted_value < p.predicted_value then p else best) init = init ∨
        l.foldl (fun best p =>
          if best.predicted_value < p.predicted_value then p else best) init ∈ l) ∧
      init.predicted_value ≤ (l.foldl (fun best p =>
          if best.predicted_value < p.predicted_value then p else best) init).predicted_value ∧
      ∀ q ∈ l, q.predicted_value ≤ (l.foldl (fun best p =>
          if best.predicted_value < p.predicted_value then p else best) init).predicted_value := by
  induction l with
  | nil => intro init; simp
  | cons x xs ih =>
      intro init
      simp only [List.foldl_cons]
      by_cases hc : init.predicted_value < x.predicted_value
      · rw [if_pos hc]
        obtain ⟨hm, hle, hall⟩ := ih x
        refine ⟨?_, le_trans (le_of_lt hc) hle, ?_⟩
        · rcases hm with hm | hm
          · exact Or.inr (by rw [hm]; exact List.mem_cons_self x xs)
          · exact Or.inr (List.mem_cons_of_mem x hm)
        · intro q hq
          rcases List.mem_cons.mp hq with hq | hq
          · rw [hq]; exact hle
          · exact hall q hq
      · rw [if_neg hc]
        obtain ⟨hm, hle, hall⟩ := ih init
        refine ⟨?_, hle, ?_⟩
        · rcases hm with hm | hm
          · exact Or.inl hm
          · exact Or.inr (List.mem_cons_of_mem x hm)
        · intro q hq
          rcases List.mem_cons.mp hq with hq | hq
          · rw [hq]; exact le_trans (le_of_not_lt hc) hle
          · exact hall q hq

theorem peakPoint_spec (pts : List ForecastPoint) (hne : pts ≠ []) :
    peakPoint pts ∈ pts ∧
      ∀ q ∈ pts, q.predicted_value ≤ (peakPoint pts).predicted_value := by
  obtain ⟨x, xs, rfl⟩ := List.exists_cons_of_ne_nil hne
  rw [peakPoint]
  simp only [List.headD_cons]
  obtain ⟨hm, -, hall⟩ := foldl_peak_spec (x :: xs) x
  refine ⟨?_, hall⟩
  rcases hm with hm | hm
  · rw [hm]
    exact List.mem_cons_self x xs
  · exact hm

theorem map_zipWith_left {α β γ δ : Type} (f : α → β → γ) (g : γ → δ) (gl : α → δ)
    (H : ∀ a b, g (f a b) = gl a) :
    ∀ (l1 : List α) (l2 : List β), l2.length = l1.length →
      (List.zipWith f l1 l2).map g = l1.map gl := by
  intro l1
  induction l1 with
  | nil => intro l2 hlen; simp
  | cons x xs ih =>
      intro l2 hlen
      cases l2 with
      | nil => simp at hlen
      | cons y ys =>
          simp only [List.zipWith_cons_cons, List.map_cons]
          rw [H, ih ys (by simpa using hlen)]

theorem zipWith_getD {α β γ : Type} (f : α → β → γ) (d : γ) (da : α) (db : β) :
    ∀ (l1 : List α) (l2 : List β) (i : Nat), i < l1.length → i < l2.length →
      (List.zipWith f l1 l2).getD i d = f (l1.getD i da) (l2.getD i db) := by
  intro l1
  induction l1 with
  | nil => intro l2 i h1 h2; simp at h1
  | cons x xs ih =>
      intro l2 i h1 h2
      cases l2 with
      | nil => simp at h2
      | cons y ys =>
          cases i with
          | zero => simp
          | succ j =>
              simp only [List.zipWith_cons_cons, List.getD_cons_succ]
              exact ih ys j (by simpa using h1) (by simpa using h2)

theorem singleTargetForecast_ok {st : ModelStore} {records : List ConsumptionRecord}
    {m : Nat} {h : Horizon} {tt : TargetType} {pts : List ForecastPoint}
    (hok : singleTargetForecast st records m h tt = .ok pts) :
    ∃ model, st.load m tt = some model ∧
      pts = (runForecast model m (lastTimestamp (cleanSeries records)) h.stepHours
        (pairsOf tt (cleanSeries records)) h.steps).1 := by
  cases hl : st.load m tt with
  | none =>
      rw [singleTargetForecast, hl] at hok
      exact absurd hok (by simp)
  | some model =>
      rw [singleTargetForecast, hl] at hok
      simp only [Except.ok.injEq] at hok
      exact ⟨model, rfl, hok.symm⟩

theorem forecastRequest_single_ok {st : ModelStore} {records : List ConsumptionRecord}
    {m : Nat} {h : Horizon} {tt : TargetType} {res : ForecastResult}
    (htt : tt ≠ TargetType.net)
    (hok : (forecastRequest st records m h tt).2 = .ok res) :
    ∃ pts, singleTargetForecast st records m h tt = .ok pts ∧
      res = ⟨pts, summarize pts⟩ := by
  cases tt with
  | net => exact absurd rfl htt
  | imp =>
      cases hs : singleTargetForecast st records m h .imp with
      | error e =>
          simp only [forecastRequest, hs] at hok
          exact absurd hok (by simp)
      | ok pts =>
          simp only [forecastRequest, hs, Except.ok.injEq] at hok
          exact ⟨pts, rfl, hok.symm⟩
  | exp =>
      cases hs : singleTargetForecast st records m h .exp with
      | error e =>
          simp only [forecastRequest, hs] at hok
          exact absurd hok (by simp)
      | ok pts =>
          simp only [forecastRequest, hs, Except.ok.injEq] at hok
          exact ⟨pts, rfl, hok.symm⟩

theorem forecastRequest_net_ok {st : ModelStore} {records : List ConsumptionRecord}
    {m : Nat} {h : Horizon} {res : ForecastResult}
    (hok : (forecastRequest st records m h .net).2 = .ok res) :
    ∃ ip ep, singleTargetForecast st records m h .imp = .ok ip ∧
      singleTargetForecast st records m h .exp = .ok ep ∧
      res.points = List.zipWith netCombine ip ep ∧
      res.summary = summarize res.points := by
  cases hi : singleTargetForecast st records m h .imp with
  | error e =>
      cases he : singleTargetForecast st records m h .exp with
      | error e2 =>
          simp only [forecastRequest, hi, he] at hok
          exact absurd hok (by simp)
      | ok ep =>
          simp only [forecastRequest, hi, he] at hok
          exact absurd hok (by simp)
  | ok ip =>
      cases he : singleTargetForecast st records m h .exp with
      | error e2 =>
          simp only [forecastRequest, hi, he] at hok
          exact absurd hok (by simp)
      | ok ep =>
          simp only [forecastRequest, hi, he, Except.ok.injEq] at hok
          subst hok
          exact ⟨ip, ep, rfl, rfl, rfl, rfl⟩

theorem forecastRequest_points {st : ModelStore} {records : List ConsumptionRecord}
    {m : Nat} {h : Horizon} {tt : TargetType} {res : ForecastResult}
    (hok : (forecastRequest st records m h tt).2 = .ok res) :
    res.summary = summarize res.points ∧
      res.points.map (fun p => p.timestamp) =
        (List.range h.steps).map
          (fun i => lastTimestamp (cleanSeries records) + h.stepHours * (i + 1)) ∧
      res.points.map (fun p => p.horizon_index) = List.range h.steps := by
  by_cases htt : tt = TargetType.net
  · subst htt
    obtain ⟨ip, ep, hi, he, hpts, hsum⟩ := forecastRequest_net_ok hok
    obtain ⟨mi, hmi, hipr⟩ := singleTargetForecast_ok hi
    obtain ⟨me, hme, hepr⟩ := singleTargetForecast_ok he
    have hlip : ip.length = h.steps := by rw [hipr]; exact runForecast_length _ _ _ _ _ _
    have hlep : ep.length = h.steps := by rw [hepr]; exact runForecast_length _ _ _ _ _ _
    have hlen : ep.length = ip.length := by rw [hlip, hlep]
    have hmts := map_zipWith_left netCombine (fun p : ForecastPoint => p.timestamp)
      (fun p : ForecastPoint => p.timestamp) (fun _ _ => rfl) ip ep hlen
    have hmidx := map_zipWith_left netCombine (fun p : ForecastPoint => p.horizon_index)
      (fun p : ForecastPoint => p.horizon_index) (fun _ _ => rfl) ip ep hlen
    refine ⟨hsum, ?_, ?_⟩
    · rw [hpts, hmts, hipr]
      exact runForecast_map_ts _ _ _ _ _ _
    · rw [hpts, hmidx, hipr]
      exact runForecast_map_idx _ _ _ _ _ _
  · obtain ⟨pts, hs, hres⟩ := forecastRequest_single_ok htt hok
    obtain ⟨model, hml, hpr⟩ := singleTargetForecast_ok hs
    subst hres
    refine ⟨rfl, ?_, ?_⟩
    · rw [hpr]
      exact runForecast_map_ts _ _ _ _ _ _
    · rw [hpr]
      exact runForecast_map_idx _ _ _ _ _ _

/-- C3: every successful forecast request returns exactly 24 points for
the daily horizon and 7 for the weekly one, in strictly increasing
timestamp order with hourly (respectively daily) spacing encoded by the
horizon indices 0..steps-1, together with the summary record whose
total is the sum of the predicted values, whose average is total over
count, and whose peak fields name a point attaining the maximum
predicted value. -/
theorem forecastCountAndSummary (st : ModelStore) (records : List ConsumptionRecord)
    (m : Nat) (h : Horizon) (tt : TargetType) (res : ForecastResult)
    (hok : (forecastRequest st records m h tt).2 = .ok res) :
    (h = .daily → res.points.length = 24) ∧
    (h = .weekly → res.points.length = 7) ∧
    res.points.length = h.steps ∧
    res.points.Pairwise (fun a b => a.timestamp < b.timestamp) ∧
    res.points.map (fun p => p.horizon_index) = List.range h.steps ∧
    res.summary.total = (res.points.map (fun p => p.predicted_value)).sum ∧
    res.summary.average = res.summary.total / res.points.length ∧
    (res.points ≠ [] →
      peakPoint res.points ∈ res.points ∧
      res.summary.peak_value = (peakPoint res.points).predicted_value ∧
      res.summary.peak_timestamp = (peakPoint res.points).timestamp ∧
      ∀ q ∈ res.points, q.predicted_value ≤ res.summary.peak_value) := by
  obtain ⟨hsum, hts, hidx⟩ := forecastRequest_points hok
  have hlen : res.points.length = h.steps := by
    have hcl := congrArg List.length hidx
    simpa using hcl
  have hpos : 0 < h.stepHours := by
    cases h <;> decide
  have hpw : res.points.Pairwise (fun a b => a.timestamp < b.timestamp) := by
    have hrange : List.Pairwise
        (fun i j : Nat => lastTimestamp (cleanSeries records) + h.stepHours * (i + 1) <
          lastTimestamp (cleanSeries records) + h.stepHours * (j + 1))
        (List.range h.steps) := by
      refine (List.pairwise_lt_range h.steps).imp (fun hij => ?_)
      exact Nat.add_lt_add_left
        (mul_lt_mul_of_pos_left (Nat.succ_lt_succ hij) hpos) _
    have h1 : List.Pairwise (fun a b : Nat => a < b)
        (res.points.map (fun p => p.timestamp)) := by
      rw [hts]
      exact List.pairwise_map.mpr hrange
    exact List.pairwise_map.mp h1
  refine ⟨fun hd => by rw [hlen, hd]; rfl, fun hw => by rw [hlen, hw]; rfl,
    hlen, hpw, hidx, ?_, ?_, ?_⟩
  · rw [hsum]
    rfl
  · rw [hsum]
    rfl
  · intro hne
    obtain ⟨hmem, hall⟩ := peakPoint_spec res.points hne
    refine ⟨hmem, by rw [hsum]; rfl, by rw [hsum]; rfl, ?_⟩
    intro q hq
    rw [hsum]
    exact hall q hq

/-- C5: a forecast request for a meter and target whose required
model(s) are absent fails with the structured ModelNotTrainedError (for
net, the independent import and export models are required), and the
inference path never writes to the Model Store: the returned store is
always the input store. -/
theorem untrainedMeterFails (st : ModelStore) (records : List ConsumptionRecord)
    (m : Nat) (h : Horizon) :
    (∀ tt, (forecastRequest st records m h tt).1 = st) ∧
    (∀ tt, tt ≠ TargetType.net → st.load m tt = none →
      (forecastRequest st records m h tt).2 = .error FcError.modelNotTrained) ∧
    ((st.load m .imp = none ∨ st.load m .exp = none) →
      (forecastRequest st records m h .net).2 = .error FcError.modelNotTrained) := by
  refine ⟨?_, ?_, ?_⟩
  · intro tt
    cases tt with
    | net =>
        cases hi : singleTargetForecast st records m h .imp with
        | error e =>
            cases he : singleTargetForecast st records m h .exp with
            | error e2 => simp [forecastRequest, hi, he]
            | ok ep => simp [forecastRequest, hi, he]
        | ok ip =>
            cases he : singleTargetForecast st records m h .exp with
            | error e2 => simp [forecastRequest, hi, he]
            | ok ep => simp [forecastRequest, hi, he]
    | imp =>
        cases hs : singleTargetForecast st records m h .imp with
        | error e => simp [forecastRequest, hs]
        | ok pts => simp [forecastRequest, hs]
    | exp =>
        cases hs : singleTargetForecast st records m h .exp with
        | error e => simp [forecastRequest, hs]
        | ok pts => simp [forecastRequest, hs]
  · intro tt htne hl
    have hs : singleTargetForecast st records m h tt = .error .modelNotTrained := by
      rw [singleTargetForecast, hl]
    cases tt with
    | net => exact absurd rfl htne
    | imp => simp [forecastRequest, hs]
    | exp => simp [forecastRequest, hs]
  · intro hl
    rcases hl with hl | hl
    · have hs : singleTargetForecast st records m h .imp = .error .modelNotTrained := by
        rw [singleTargetForecast, hl]
      cases he : singleTargetForecast st records m h .exp with
      | error e2 => simp [forecastRequest, hs, he]
      | ok ep => simp [forecastRequest, hs, he]
    · have hs : singleTargetForecast st records m h .exp = .error .modelNotTrained := by
        rw [singleTargetForecast, hl]
      cases hi : singleTargetForecast st records m h .imp with
      | error e => simp [forecastRequest, hi, hs]
      | ok ip => simp [forecastRequest, hi, hs]

/-- C6 (amended): every ForecastPoint generated by an import or export
forecast request has a nonnegative predicted value: the raw ensemble
prediction of each step is clamped at zero inside the forecasting
loop.  Net forecast points are differences of the two clamped runs and
are not covered by this bound. -/
theorem clampNonnegSingleTarget (st : ModelStore) (records : List ConsumptionRecord)
    (m : Nat) (h : Horizon) (tt : TargetType) (res : ForecastResult)
    (htt : tt ≠ TargetType.net)
    (hok : (forecastRequest st records m h tt).2 = .ok res) :
    ∀ p ∈ res.points, 0 ≤ p.predicted_value := by
  obtain ⟨pts, hs, hres⟩ := forecastRequest_single_ok htt hok
  obtain ⟨model, hml, hpr⟩ := singleTargetForecast_ok hs
  subst hres
  intro p hp
  rw [hpr] at hp
  exact runForecast_nonneg _ _ _ _ _ _ p hp

/-- C7: a successful net forecast has exactly the length of the
aligned import and export forecasts, and at every aligned index its
timestamp is the import timestamp and its predicted value is exactly
the import prediction minus the export prediction (exact rational
equality, hence within any floating-point tolerance). -/
theorem netIsImportMinusExport (st : ModelStore) (records : List ConsumptionRecord)
    (m : Nat) (h : Horizon) (ip ep : List ForecastPoint) (res : ForecastResult)
    (hi : singleTargetForecast st records m h .imp = .ok ip)
    (he : singleTargetForecast st records m h .exp = .ok ep)
    (hok : (forecastRequest st records m h .net).2 = .ok res) :
    res.points.length = ip.length ∧ ip.length = ep.length ∧
    ∀ i, i < res.points.length →
      (res.points.getD i ⟨0, 0, 0⟩).timestamp = (ip.getD i ⟨0, 0, 0⟩).timestamp ∧
      (res.points.getD i ⟨0, 0, 0⟩).predicted_value =
        (ip.getD i ⟨0, 0, 0⟩).predicted_value - (ep.getD i ⟨0, 0, 0⟩).predicted_value := by
  obtain ⟨ip2, ep2, hi2, he2, hpts, -⟩ := forecastRequest_net_ok hok
  have hip : ip2 = ip := by
    have h12 := hi2.symm.trans hi
    simpa using h12
  have hep : ep2 = ep := by
    have h12 := he2.symm.trans he
    simpa using h12
  rw [hip, hep] at hpts
  obtain ⟨mi, hmi, hipr⟩ := singleTargetForecast_ok hi
  obtain ⟨me, hme, hepr⟩ := singleTargetForecast_ok he
  have hlip : ip.length = h.steps := by
    rw [hipr]
    exact runForecast_length _ _ _ _ _ _
  have hlep : ep.length = h.steps := by
    rw [hepr]
    exact runForecast_length _ _ _ _ _ _
  have hlen : res.points.length = ip.length := by
    rw [hpts, List.length_zipWith, hlip, hlep]
    simp
  refine ⟨hlen, by rw [hlip, hlep], ?_⟩
  intro i hilt
  have hi1 : i < ip.length := by rw [← hlen]; exact hilt
  have hi2l : i < ep.length := by rw [hlep, ← hlip]; exact hi1
  have hz := zipWith_getD netCombine ⟨0, 0, 0⟩ ⟨0, 0, 0⟩ ⟨0, 0, 0⟩ ip ep i hi1 hi2l
  rw [hpts, hz]
  exact ⟨rfl, rfl⟩

/-- C2: the DayForecast and WeekForecast components render fixed
hard-coded data: whatever the surrounding application state, they
return the same 24 hourly and the same 7 daily (label, consumption,
forecast) points, with no dependence on any trained model, meter or
historical data. -/
theorem hardcodedForecastCharts {σ τ : Type} (s : σ) (u : τ) :
    DayForecast s = hourlyData ∧
    WeekForecast u = weeklyData ∧
    (∀ (σ2 : Type) (s2 : σ2), DayForecast s2 = DayForecast s) ∧
    (∀ (τ2 : Type) (u2 : τ2), WeekForecast u2 = WeekForecast u) ∧
    (DayForecast s).length = 24 ∧
    (WeekForecast u).length = 7 ∧
    (DayForecast s).map (fun p => p.hour) = List.range 24 ∧
    (WeekForecast u).map (fun p => p.day) =
      ["Mon", "Tue", "Wed", "Thu", "Fri", "Sat", "Sun"] := by
  exact ⟨rfl, rfl, fun σ2 s2 => rfl, fun τ2 u2 => rfl, rfl, rfl, by simp [DayForecast, hourlyData]; decide, rfl⟩

theorem hardcodedForecastCharts_witness :
    (DayForecast (() : Unit)).length = 24 ∧
      (WeekForecast (() : Unit)).length = 7 :=
  ⟨(hardcodedForecastCharts () ()).2.2.2.2.1,
   (hardcodedForecastCharts () ()).2.2.2.2.2.1⟩

theorem noLeakage_witness :
    demoRecs.filter (fun r => decide (r.timestamp < 3)) =
      demoRecsP.filter (fun r => decide (r.timestamp < 3)) ∧
    demoRow1.timestamp = 3 ∧ demoRowP1.timestamp = 3 ∧
    inputFeatures demoRow1 = inputFeatures demoRowP1 := by
  have hm1 : demoRow1 ∈ demoRows := by
    rw [demoRow1, List.getD_eq_getElem _ _ (by decide)]
    exact List.getElem_mem _
  have hm2 : demoRowP1 ∈ demoRowsP := by
    rw [demoRowP1, List.getD_eq_getElem _ _ (by decide)]
    exact List.getElem_mem _
  refine ⟨rfl, by decide, by decide, ?_⟩
  exact (noLeakage_poisoned_row .imp 7 demoRecs demoRecsP 3 demoRows demoRowsP
    demoRow1 demoRowP1 rfl rfl rfl hm1 hm2 (by decide) (by decide)).1

theorem forecastCountAndSummary_witness :
    demoDailyRes.points.length = 24 ∧ demoWeeklyRes.points.length = 7 ∧
    demoDailyRes.summary.total =
      (demoDailyRes.points.map (fun p => p.predicted_value)).sum :=
  ⟨(forecastCountAndSummary demoStore [] 5 .daily .imp demoDailyRes rfl).1 rfl,
   (forecastCountAndSummary demoStore [] 5 .weekly .imp demoWeeklyRes rfl).2.1 rfl,
   (forecastCountAndSummary demoStore [] 5 .daily .imp demoDailyRes rfl).2.2.2.2.2.1⟩

unseal Rat.add Rat.mul Rat.sub Rat.inv in
theorem temporalSplit_witness :
    demoSplit.train = demoRows50.take (splitIndex demoRows50.length (1 / 5)) ∧
    demoSplit.train ++ demoSplit.test = demoRows50 := by
  have hs : List.Pairwise (fun a b : FeatureRow => a.timestamp < b.timestamp)
      demoRows50 := by decide
  have hk : splitDataset demoRows50 (1 / 5) = .ok demoSplit := rfl
  exact ⟨(temporalSplit demoRows50 (1 / 5) demoSplit hs hk).1,
    (temporalSplit demoRows50 (1 / 5) demoSplit hs hk).2.2.1⟩

theorem untrainedMeterFails_witness :
    (forecastRequest emptyStore [] 1 .daily .imp).2 =
      .error FcError.modelNotTrained ∧
    (forecastRequest emptyStore [] 1 .daily .net).2 =
      .error FcError.modelNotTrained ∧
    (forecastRequest emptyStore [] 1 .daily .imp).1 = emptyStore :=
  ⟨(untrainedMeterFails emptyStore [] 1 .daily).2.1 .imp (by decide) rfl,
   (untrainedMeterFails emptyStore [] 1 .daily).2.2 (Or.inl rfl),
   (untrainedMeterFails emptyStore [] 1 .daily).1 .imp⟩

unseal Rat.add Rat.mul Rat.sub Rat.inv in
theorem clampNonnegSingleTarget_witness :
    0 ≤ (demoDailyRes.points.getD 0 ⟨0, 0, 0⟩).predicted_value := by
  have hm : demoDailyRes.points.getD 0 ⟨0, 0, 0⟩ ∈ demoDailyRes.points := by
    rw [List.getD_eq_getElem _ _ (by decide)]
    exact List.getElem_mem _
  exact clampNonnegSingleTarget demoStore [] 5 .daily .imp demoDailyRes
    (by decide) rfl _ hm

unseal Rat.add Rat.mul Rat.sub Rat.inv in
theorem negativeNetPoint_counterexample :
    (forecastRequest negStore [] 5 .daily .net).2 = .ok negNetRes ∧
    negNetRes.points.getD 0 ⟨0, 0, 0⟩ ∈ negNetRes.points ∧
    (negNetRes.points.getD 0 ⟨0, 0, 0⟩).predicted_value < 0 := by
  refine ⟨rfl, ?_, by decide⟩
  rw [List.getD_eq_getElem _ _ (by decide)]
  exact List.getElem_mem _

unseal Rat.add Rat.mul Rat.sub Rat.inv in
theorem netIsImportMinusExport_witness :
    (demoNetRes.points.getD 0 ⟨0, 0, 0⟩).predicted_value =
      (demoImpPts.getD 0 ⟨0, 0, 0⟩).predicted_value -
        (demoExpPts.getD 0 ⟨0, 0, 0⟩).predicted_value ∧
    (demoNetRes.points.getD 0 ⟨0, 0, 0⟩).timestamp =
      (demoImpPts.getD 0 ⟨0, 0, 0⟩).timestamp :=
  ⟨((netIsImportMinusExport demoStore [] 5 .daily demoImpPts demoExpPts demoNetRes
      rfl rfl rfl).2.2 0 (by decide)).2,
   ((netIsImportMinusExport demoStore [] 5 .daily demoImpPts demoExpPts demoNetRes
      rfl rfl rfl).2.2 0 (by decide)).1⟩

theorem duplicateTimestampPolicy_witness :
    (demoDupRows.map (fun fr => fr.timestamp)).Nodup ∧
    (5 ∈ demoDupRows.map (fun fr => fr.timestamp) ↔
      5 ∈ demoDupRecs.map (fun r => r.timestamp)) :=
  ⟨((duplicateTimestampPolicy .imp 3 demoDupRecs).2 demoDupRows rfl).1,
   ((duplicateTimestampPolicy .imp 3 demoDupRecs).2 demoDupRows rfl).2.1 5⟩

theorem insufficientHistoryFails_witness :
    demoShortRecs.length < minObservations ∧
    buildFeatures .imp 9 demoShortRecs = .error FcError.insufficientData :=
  ⟨by decide, insufficientHistoryFails .imp 9 demoShortRecs (by decide)⟩

theorem mapeZeroGuard_witness :
    mape [((0 : ℚ), 5), (2, 1)] = mape [((2 : ℚ), 1)] ∧
    mape [((0 : ℚ), 3)] = none :=
  ⟨mapeZeroGuard.1 5 [(2, 1)], mapeZeroGuard.2.1 [(0, 3)] (by decide)⟩
